import Mathlib

/-!
Shallow embedding of the PlayGodot client core
(`src/python/playgodot/client.py` and `src/python/playgodot/godot.py`):
the WebSocket `Client` (request correlation, receive loop, disconnect)
and the `Godot._wait_for` polling primitive, together with proofs of the
specification's claims about them.

JSON values are modelled by `JValue` (numbers as integers, which covers
every value the claims mention); Python dicts are association lists with
unique keys; asyncio futures are modelled by an explicit `FutureVal`
state; wall-clock time is modelled by rationals.
-/

namespace PlayGodot

/-- A JSON value as produced by `json.loads` / consumed by `json.dumps`.
Numbers are modelled as integers (all numeric values in the claims are
integral). Objects are association lists in insertion order, keys unique. -/
inductive JValue where
  | null
  | bool (b : Bool)
  | num (n : Int)
  | str (s : String)
  | arr (elems : List JValue)
  | obj (fields : List (String × JValue))

/-- Python `dict.get(k)`: the value at the first matching key, if any. -/
def dictGet (fs : List (String × JValue)) (k : String) : Option JValue :=
  (fs.find? (fun p => p.1 == k)).map (fun p => p.2)

mutual
/-- Python `==` on JSON values: `True == 1`, `False == 0`; lists compare
pointwise; dicts compare by key lookup (order-insensitive, keys unique). -/
def jeq : JValue → JValue → Bool
  | .null, .null => true
  | .bool a, .bool b => a == b
  | .bool a, .num n => if a then n == 1 else n == 0
  | .num n, .bool b => if b then n == 1 else n == 0
  | .num a, .num b => a == b
  | .str a, .str b => a == b
  | .arr a, .arr b => jeqArr a b
  | .obj a, .obj b => (a.length == b.length) && jeqObjFields a b
  | _, _ => false

/-- Pointwise Python `==` on lists. -/
def jeqArr : List JValue → List JValue → Bool
  | [], [] => true
  | x :: xs, y :: ys => jeq x y && jeqArr xs ys
  | _, _ => false

/-- Every field of the first dict is present with an equal value in the
second (with equal lengths and unique keys this is dict equality). -/
def jeqObjFields : List (String × JValue) → List (String × JValue) → Bool
  | [], _ => true
  | (k, v) :: rest, b =>
      (match dictGet b k with
       | some w => jeq v w
       | none => false) && jeqObjFields rest b
end

/-- Python truthiness of a JSON value (`bool(x)`). -/
def truthy : JValue → Bool
  | .null => false
  | .bool b => b
  | .num n => n != 0
  | .str s => s != ""
  | .arr elems => !elems.isEmpty
  | .obj fields => !fields.isEmpty

/-- Errors of the `playgodot.exceptions` taxonomy that the client core can
complete a call with. `commandError` carries the raw message and code
values taken from the wire frame (`CommandError(message=..., code=...)`);
`timeoutError` carries the method and timeout of the expired request. -/
inductive PGError where
  | connectionError (msg : String)
  | commandError (message : JValue) (code : JValue)
  | timeoutError (method : String) (timeout : ℚ)

/-- The state of one `asyncio.Future`: unset, resolved (`set_result`),
failed (`set_exception`) or cancelled (`cancel`). -/
inductive FutureVal where
  | pending
  | result (v : JValue)
  | exn (e : PGError)
  | cancelled

/-- `Future.done()`: true once resolved, failed or cancelled. -/
def FutureVal.done : FutureVal → Bool
  | .pending => false
  | _ => true

/-- The mutable state of one `Client` instance.

`ws` models `self._ws is not None`; `receiveTask` models
`self._receive_task is not None`; `requestId` is `self._request_id`.
`futures` is a ledger of every future ever created by `send`, keyed by
request id, recording each future object's current state (futures popped
from the pending dict survive, still referenced by their awaiting
caller); `pendingIds` is the key set of `self._pending_requests`, whose
values are the corresponding entries of `futures`. -/
structure ClientState where
  ws : Bool
  receiveTask : Bool
  requestId : Nat
  futures : List (Nat × FutureVal)
  pendingIds : List Nat

/-- A freshly constructed `Client` (`Client.__init__`). -/
def ClientState.init : ClientState :=
  { ws := false, receiveTask := false, requestId := 0, futures := [], pendingIds := [] }

/-- State of the future registered under id `i`, if `send` ever created one. -/
def lookupFuture (st : ClientState) (i : Nat) : Option FutureVal :=
  ((st.futures.find? (fun p => p.1 == i)).map (fun p => p.2))

/-- Overwrite the state of the future registered under id `i`. -/
def setFuture (fs : List (Nat × FutureVal)) (i : Nat) (v : FutureVal) :
    List (Nat × FutureVal) :=
  fs.map (fun p => if p.1 == i then (p.1, v) else p)

/-- Python dict-key equality between an incoming `id` JSON value and an
integer key of `_pending_requests` (in Python, `True == 1` and
`False == 0` also as dict keys; non-numeric values never match). -/
def keyMatch (idv : JValue) (k : Nat) : Bool :=
  match idv with
  | .num n => n == (k : Int)
  | .bool b => (if b then (1 : Int) else 0) == (k : Int)
  | _ => false

/-- Completing the future stored under id `i` (Python: mutating the
future object in place; the pending map is not touched). -/
def completeFuture (st : ClientState) (i : Nat) (fv : FutureVal) : ClientState :=
  { st with futures := setFuture st.futures i fv }

/-- `Client._handle_response`. Returns `none` when the body raises an
uncaught exception (`error.get` on a non-dict `error` value); otherwise
the updated state. Absent or `null` `id` → no-op; no matching pending
future, or future already done → no-op; otherwise the future is
completed: `set_exception(CommandError(message=error.get("message",
"Unknown error"), code=error.get("code")))` if the frame has an `error`
key, else `set_result(data.get("result"))`. -/
def handle_response (st : ClientState) (data : List (String × JValue)) :
    Option ClientState :=
  match dictGet data "id" with
  | none => some st
  | some .null => some st
  | some idv =>
    match st.pendingIds.find? (fun k => keyMatch idv k) with
    | none => some st
    | some i =>
      match lookupFuture st i with
      | none => some st
      | some fv =>
        if fv.done then some st
        else
          match dictGet data "error" with
          | some (.obj err) =>
              some (completeFuture st i
                (.exn (.commandError ((dictGet err "message").getD (.str "Unknown error"))
                                     ((dictGet err "code").getD .null))))
          | some _ => none
          | none =>
              some (completeFuture st i (.result ((dictGet data "result").getD .null)))

/-- One incoming WebSocket message as seen by `Client._receive_loop`:
either its bytes fail `json.loads` (`JSONDecodeError`) or they decode to
a JSON-RPC frame (a dict). -/
inductive RawMsg where
  | malformed
  | frame (data : List (String × JValue))

/-- How a run of the receive loop body over a batch of messages ends:
still reading (`ok`), or dead from an uncaught exception (`crashed`). -/
inductive LoopResult where
  | ok (st : ClientState)
  | crashed (st : ClientState)

/-- The body of `Client._receive_loop` over a list of delivered messages:
`except json.JSONDecodeError: continue` skips a malformed message and
keeps reading; a decoded frame goes to `_handle_response`. -/
def receiveMany (st : ClientState) (msgs : List RawMsg) : LoopResult :=
  match msgs with
  | [] => .ok st
  | .malformed :: rest => receiveMany st rest
  | .frame data :: rest =>
    match handle_response st data with
    | some st' => receiveMany st' rest
    | none => .crashed st

/-- `Client._receive_loop`'s reaction to the transport closing:
`except websockets.exceptions.ConnectionClosed: pass` — the loop
returns, leaving every future and the pending map untouched. -/
def receiveLoopOnClosed (st : ClientState) : ClientState := st

/-- The future states after `Client.disconnect` runs
`for future in self._pending_requests.values(): if not future.done():
future.cancel()` — every not-yet-done future still in the pending map is
cancelled; futures already popped or done are untouched. -/
def cancelPendingFutures (st : ClientState) : List (Nat × FutureVal) :=
  st.futures.map
    (fun p => if st.pendingIds.contains p.1 && !p.2.done then (p.1, .cancelled) else p)

/-- `Client.disconnect`: cancel and drop the receive task, close and drop
the websocket, cancel every pending not-done future, clear the map.
`_request_id` is not reset. -/
def disconnect (st : ClientState) : ClientState :=
  { ws := false, receiveTask := false, requestId := st.requestId,
    futures := cancelPendingFutures st, pendingIds := [] }

/-- A successful `Client.connect`: acquires the websocket and starts the
receive task; `_request_id` and `_pending_requests` are untouched. -/
def connectOk (st : ClientState) : ClientState :=
  { st with ws := true, receiveTask := true }

/-- The `finally: self._pending_requests.pop(request_id, None)` of
`Client.send` (no error when the key is already absent). -/
def popPending (st : ClientState) (i : Nat) : ClientState :=
  { st with pendingIds := st.pendingIds.filter (fun k => k != i) }

/-- The synchronous registration prefix of `Client.send` (runs only when
connected): `self._request_id += 1`, create a future, store it in
`_pending_requests`. Returns the new state and the assigned id. -/
def sendStart (st : ClientState) : ClientState × Nat :=
  let i := st.requestId + 1
  ({ st with requestId := i,
             futures := st.futures ++ [(i, .pending)],
             pendingIds := st.pendingIds ++ [i] }, i)

/-- Python truthiness of the `params` argument (`dict | None`):
`if params:` is false for `None` and for an empty dict. -/
def paramsTruthy : Option (List (String × JValue)) → Bool
  | none => false
  | some ps => !ps.isEmpty

/-- The request frame built by `Client.send`:
`{"jsonrpc": "2.0", "id": request_id, "method": method}` with
`request["params"] = params` added only under `if params:`. -/
def buildRequest (i : Nat) (method : String)
    (params : Option (List (String × JValue))) : List (String × JValue) :=
  let base := [("jsonrpc", JValue.str "2.0"), ("id", JValue.num (i : Int)),
               ("method", JValue.str method)]
  if paramsTruthy params then base ++ [("params", JValue.obj (params.getD []))] else base

/-- What a completed `Client.send` call hands its caller: the response's
result value, or a raised exception. -/
inductive SendResult where
  | ok (v : JValue)
  | raised (e : PGError)

/-- `asyncio.wait_for` cancels the awaited future when the timeout fires
(only if it is not already done). -/
def cancelFutureIfPending (st : ClientState) (i : Nat) : ClientState :=
  match lookupFuture st i with
  | some .pending => { st with futures := setFuture st.futures i .cancelled }
  | _ => st

/-- The observable outcome of one full `Client.send` call: final client
state, value returned or exception raised, completion time (seconds from
the call, at model granularity zero), and the frame written to the
websocket (`none` when nothing was written). -/
structure SendRun where
  state : ClientState
  result : SendResult
  time : ℚ
  wrote : Option (List (String × JValue))

/-- The timeout path of `Client.send`: `asyncio.wait_for` cancels the
future and raises `asyncio.TimeoutError` at the deadline, the handler
re-raises `TimeoutError(f"Request ... timed out ...")`, and the
`finally` pops the id from the pending map. -/
def sendTimeoutEnd (st : ClientState) (i : Nat) (method : String) (timeout : ℚ)
    (req : List (String × JValue)) : SendRun :=
  { state := popPending (cancelFutureIfPending st i) i,
    result := .raised (.timeoutError method timeout), time := timeout, wrote := some req }

/-- One full `Client.send(method, params, timeout)` call, parameterised
by the remote's behaviour for this request: `reply = some (t, data)`
means the remote's frame `data` is delivered `t` seconds after the send,
`none` means no frame ever arrives. A frame delivered before the
deadline runs `_handle_response`; if it completed this call's future the
await returns/raises with it and the `finally` pops the id, otherwise
the call expires at `timeout`. A frame at or after the deadline arrives
after the pop and is dropped, leaving the timeout outcome. -/
def sendRun (st : ClientState) (method : String)
    (params : Option (List (String × JValue))) (timeout : ℚ)
    (reply : Option (ℚ × List (String × JValue))) : SendRun :=
  if !st.ws then
    { state := st, result := .raised (.connectionError "Not connected to Godot"),
      time := 0, wrote := none }
  else
    let p := sendStart st
    let req := buildRequest p.2 method params
    match reply with
    | some (t, data) =>
      if t < timeout then
        match handle_response p.1 data with
        | some st2 =>
          match lookupFuture st2 p.2 with
          | some (.result v) =>
              { state := popPending st2 p.2, result := .ok v, time := t, wrote := some req }
          | some (.exn e) =>
              { state := popPending st2 p.2, result := .raised e, time := t, wrote := some req }
          | _ => sendTimeoutEnd st2 p.2 method timeout req
        | none => sendTimeoutEnd p.1 p.2 method timeout req
      else sendTimeoutEnd p.1 p.2 method timeout req
    | none => sendTimeoutEnd p.1 p.2 method timeout req

/-- Result of `Godot.get_property` given what `send` produced:
`result.get("value")` on the dict result (`fault` models the
`AttributeError` a non-dict result would raise). -/
inductive PropResult where
  | ok (v : JValue)
  | raised (e : PGError)
  | fault

/-- The `result.get("value")` step of `Godot.get_property`. -/
def getPropertyFrom : SendResult → PropResult
  | .ok (.obj fs) => .ok ((dictGet fs "value").getD .null)
  | .ok _ => .fault
  | .raised e => .raised e

/-- `Godot.get_property(path, property_name)` driven through one
`Client.send("get_property", {"path": ..., "property": ...})` call
(timeout passed explicitly), returning the send run and the extracted
property value. -/
def getPropertyRun (st : ClientState) (path property : String) (timeout : ℚ)
    (reply : Option (ℚ × List (String × JValue))) : SendRun × PropResult :=
  let run := sendRun st "get_property"
      (some [("path", .str path), ("property", .str property)]) timeout reply
  (run, getPropertyFrom run.result)

/-! ## Condition Waiter (`Godot._wait_for`)

Attempts are indexed 0, 1, 2, …; predicate evaluation is modelled as
instantaneous and each `asyncio.sleep(interval)` as exactly `interval`
seconds, so attempt `k` happens at time `k * interval` on the monotonic
clock sampled once at entry. -/

/-- What one predicate attempt does: return a value, or raise an
exception with the given class flags (`exceptionSubclass`: the raised
class derives from `Exception`; `nodeNotFound`: it is
`NodeNotFoundError`). -/
inductive AttemptRes where
  | ret (v : JValue)
  | raise (exceptionSubclass : Bool) (nodeNotFound : Bool)

/-- Whether `except (NodeNotFoundError, Exception)` catches a raised
exception with the given class flags. -/
def caughtByWaitFor (exceptionSubclass nodeNotFound : Bool) : Bool :=
  nodeNotFound || exceptionSubclass

/-- The satisfaction test of `Godot._wait_for`: with an `expected` value,
`result == expected` (Python equality); otherwise `elif result:`
(truthiness). -/
def satisfiedBy (expected : Option JValue) (v : JValue) : Bool :=
  match expected with
  | some e => jeq v e
  | none => truthy v

/-- How a `Godot._wait_for` run ends: a satisfying value at attempt `k`,
`TimeoutError` raised right after attempt `k` (so at time
`k * interval`), or an uncaught exception from attempt `k` propagating
out of the loop. -/
inductive WaitOutcome where
  | success (k : Nat) (v : JValue)
  | timeout (k : Nat)
  | uncaught (k : Nat)

/-- The loop of `Godot._wait_for`, fuelled (the fuel is a modelling
device; `waitLoopF_total` shows it never runs out from
`waitForRun`'s allowance when `interval > 0` and raises are caught).
Attempt `k`: evaluate the predicate; a satisfying return exits with the
value; an unsatisfying return or a caught exception falls through to the
deadline check `elapsed >= timeout` (elapsed is `k * interval`), which
raises `TimeoutError`; otherwise sleep `interval` and go again. -/
def waitLoopF (T I : ℚ) (pred : Nat → AttemptRes) (expected : Option JValue) :
    Nat → Nat → Option WaitOutcome
  | _, 0 => none
  | k, fuel+1 =>
    let next : Option WaitOutcome :=
      if T ≤ (k : ℚ) * I then some (.timeout k)
      else waitLoopF T I pred expected (k+1) fuel
    match pred k with
    | .ret v => if satisfiedBy expected v then some (.success k v) else next
    | .raise e nnf => if caughtByWaitFor e nnf then next else some (.uncaught k)

/-- Fuel allowance: one more attempt than `⌈T / I⌉`, the index of the
first attempt at or past the deadline. -/
def attemptsBound (T I : ℚ) : Nat := (⌈T / I⌉).toNat + 1

/-- One `Godot._wait_for(fn, timeout=T, interval=I, expected)` run. -/
def waitForRun (T I : ℚ) (pred : Nat → AttemptRes) (expected : Option JValue) :
    Option WaitOutcome :=
  waitLoopF T I pred expected 0 (attemptsBound T I)

/-! ## Interleaved operation traces

The asyncio event loop interleaves, at suspension points, the atomic
state-mutating steps of the `send` coroutines, the receive loop, and
`disconnect`. `Op` enumerates those atomic steps; `runOps` runs an
arbitrary interleaving and records the request id each `send`
registration step assigned. -/

/-- One atomic state-mutating step of the client's cooperative tasks. -/
inductive Op where
  | connect
  | sendBegin
  | deliver (m : RawMsg)
  | closed
  | awaitTimeout (i : Nat)
  | resumePop (i : Nat)
  | disc

/-- Effect of one atomic step; the second component is the request id it
assigned, for the `send` registration step on a connected client. -/
def stepOp (st : ClientState) : Op → ClientState × Option Nat
  | .connect => (connectOk st, none)
  | .sendBegin =>
      if st.ws then ((sendStart st).1, some (sendStart st).2) else (st, none)
  | .deliver m =>
      (match receiveMany st [m] with
       | .ok st' => st'
       | .crashed st' => st', none)
  | .closed => (receiveLoopOnClosed st, none)
  | .awaitTimeout i => (popPending (cancelFutureIfPending st i) i, none)
  | .resumePop i => (popPending st i, none)
  | .disc => (disconnect st, none)

/-- Run an interleaving of atomic steps, collecting the assigned request
ids in order. -/
def runOps (st : ClientState) : List Op → ClientState × List Nat
  | [] => (st, [])
  | op :: ops =>
    let r := stepOp st op
    let rest := runOps r.1 ops
    (rest.1, r.2.toList ++ rest.2)

/-! ## Helper facts and shared concrete states -/

/-- Whether the `error` value of a frame, when present, is a dict (the
only shape `_handle_response` can process without raising). -/
def errorShapeOk (data : List (String × JValue)) : Bool :=
  match dictGet data "error" with
  | some (.obj _) => true
  | some _ => false
  | none => true

/-- The completion `_handle_response` writes into a live pending future
for a frame (meaningful when `errorShapeOk data`; the `.pending` arm is
the unreachable shape on which the handler raises instead). -/
def frameOutcome (data : List (String × JValue)) : FutureVal :=
  match dictGet data "error" with
  | some (.obj err) =>
      .exn (.commandError ((dictGet err "message").getD (.str "Unknown error"))
                          ((dictGet err "code").getD .null))
  | some _ => .pending
  | none => .result ((dictGet data "result").getD .null)

/-- A future completed with the connection-closed `ConnectionError`
failure that the specification prescribes. -/
def isConnClosedCompletion : Option FutureVal → Bool
  | some (.exn (.connectionError _)) => true
  | _ => false

/-- A freshly connected client. -/
def connectedClient : ClientState := connectOk ClientState.init

/-- A connected client with one in-flight request (id 1, future pending). -/
def clientWithPending1 : ClientState := (sendStart connectedClient).1

/-- `find?` over a key-preserving map of an association list. -/
theorem find_map_keyed (l : List (Nat × FutureVal)) (i : Nat)
    (g : Nat × FutureVal → Nat × FutureVal) (hg : ∀ p, (g p).1 = p.1) :
    (l.map g).find? (fun p => p.1 == i) = (l.find? (fun p => p.1 == i)).map g := by
  induction l with
  | nil => rfl
  | cons p l ih =>
    simp only [List.map_cons, List.find?_cons, hg p]
    by_cases h : p.1 == i
    · simp [h]
    · simp only [h, cond_false]
      exact ih

/-- Looking up a future after overwriting that same future's state. -/
theorem lookupFuture_completeFuture_self (st : ClientState) (i : Nat) (fv v : FutureVal)
    (h : lookupFuture st i = some fv) :
    lookupFuture (completeFuture st i v) i = some v := by
  unfold lookupFuture at h ⊢
  unfold completeFuture setFuture
  rw [find_map_keyed _ i _ (fun p => by split <;> rfl)]
  obtain ⟨p, hp, _⟩ : ∃ p, st.futures.find? (fun p => p.1 == i) = some p ∧ p.2 = fv := by
    cases hfind : st.futures.find? (fun p => p.1 == i) with
    | none => rw [hfind] at h; simp at h
    | some p => rw [hfind] at h; exact ⟨p, rfl, by simpa using h⟩
  have hkey : p.1 = i := by
    have := List.find?_some hp
    simpa using this
  rw [hp]
  simp [hkey]

/-- `completeFuture` touches only the future ledger. -/
theorem completeFuture_fields (st : ClientState) (i : Nat) (v : FutureVal) :
    (completeFuture st i v).ws = st.ws ∧
    (completeFuture st i v).receiveTask = st.receiveTask ∧
    (completeFuture st i v).requestId = st.requestId ∧
    (completeFuture st i v).pendingIds = st.pendingIds :=
  ⟨rfl, rfl, rfl, rfl⟩

/-- `handle_response` only ever rewrites the future ledger: whichever
branch runs, `ws`, `receiveTask`, `requestId` and `pendingIds` survive. -/
theorem handle_response_frame_fields (st st' : ClientState)
    (data : List (String × JValue)) (h : handle_response st data = some st') :
    st'.ws = st.ws ∧ st'.receiveTask = st.receiveTask ∧
    st'.requestId = st.requestId ∧ st'.pendingIds = st.pendingIds := by
  unfold handle_response at h
  repeat' split at h
  all_goals
    first
    | (cases h; exact ⟨rfl, rfl, rfl, rfl⟩)
    | cases h

/-! ## Claims -/

/-- Claim C9, counterexample: the caller supplies a params object (the
empty dict, `params.isSome`), yet `Client.send`'s `if params:` drops the
key — the encoded frame for `send("ping", {})` has no `params` member,
refuting "the params key is present exactly when a params object was
supplied". -/
theorem claim9_counterexample :
    (some ([] : List (String × JValue))).isSome = true ∧
    dictGet (buildRequest 1 "ping" (some [])) "params" = none :=
  ⟨rfl, rfl⟩

/-- Claim C9 (amended): every encoded request carries the protocol tag
`"jsonrpc": "2.0"`, the freshly assigned integer id, and the method
name; the `params` key is present exactly when the supplied params
object is truthy — non-`None` and non-empty — and then holds the
caller's object unchanged; for `None` or an empty dict it is absent. -/
theorem claim9_request_shape (i : Nat) (method : String)
    (params : Option (List (String × JValue))) :
    dictGet (buildRequest i method params) "jsonrpc" = some (.str "2.0") ∧
    dictGet (buildRequest i method params) "id" = some (.num (i : Int)) ∧
    dictGet (buildRequest i method params) "method" = some (.str method) ∧
    dictGet (buildRequest i method params) "params" =
      (if paramsTruthy params then some (.obj (params.getD [])) else none) := by
  unfold buildRequest
  by_cases h : paramsTruthy params = true
  · simp [h, dictGet]
  · simp only [Bool.not_eq_true] at h
    simp [h, dictGet]

/-- Claim C6: the concrete `get_property` scenario. On a fresh connected
client with request id 1 assigned, a stub replying
`{id:1, result:{value:42}}` half a second in gives the caller `42`
(via `Godot.get_property`'s `result.get("value")`); a stub that never
replies makes the call fail with the repo's `TimeoutError`
(RequestTimeout) at exactly the 1.0s deadline; a stub replying
`{id:1, error:{message:"no such node"}}` fails it with `CommandError`
(RemoteError) carrying that message and a `None` code, and with
`code: 404` present the code is carried too. -/
theorem claim6_get_property_scenarios :
    (getPropertyRun connectedClient "/X" "y" 1
        (some (0, [("id", .num 1), ("result", .obj [("value", .num 42)])]))).2
      = .ok (.num 42) ∧
    (getPropertyRun connectedClient "/X" "y" 1
        (some (0, [("id", .num 1), ("result", .obj [("value", .num 42)])]))).1.time
      = 0 ∧
    (getPropertyRun connectedClient "/X" "y" 1 none).2
      = .raised (.timeoutError "get_property" 1) ∧
    (getPropertyRun connectedClient "/X" "y" 1 none).1.time = 1 ∧
    (getPropertyRun connectedClient "/X" "y" 1
        (some (0, [("id", .num 1), ("error", .obj [("message", .str "no such node")])]))).2
      = .raised (.commandError (.str "no such node") .null) ∧
    (getPropertyRun connectedClient "/X" "y" 1
        (some (0, [("id", .num 1),
          ("error", .obj [("message", .str "no such node"), ("code", .num 404)])]))).2
      = .raised (.commandError (.str "no such node") (.num 404)) := by
  refine ⟨?_, ?_, ?_, ?_, ?_, ?_⟩ <;> rfl

/-- Claim C2, counterexample: with request 1 in flight, a message whose
bytes fail to decode is not connection-fatal — `except
json.JSONDecodeError: continue` leaves the state untouched (request 1
still pending, nothing failed with a connection-closed reason), and the
loop keeps reading: a later well-formed frame for id 1 still resolves it
with its result. -/
theorem claim2_counterexample :
    receiveMany clientWithPending1 [.malformed] = .ok clientWithPending1 ∧
    isConnClosedCompletion (lookupFuture clientWithPending1 1) = false ∧
    lookupFuture clientWithPending1 1 = some .pending ∧
    receiveMany clientWithPending1
        [.malformed, .frame [("id", .num 1), ("result", .num 42)]]
      = .ok (completeFuture clientWithPending1 1 (.result (.num 42))) ∧
    lookupFuture (completeFuture clientWithPending1 1 (.result (.num 42))) 1
      = some (.result (.num 42)) :=
  ⟨rfl, rfl, rfl, rfl, rfl⟩

/-- Claim C2 (amended): a message that fails to decode is silently
skipped — the receive loop continues with the remaining messages exactly
as if the malformed one had not arrived — and the receive loop never
fails the connection on its own: any surviving run leaves the websocket
and the pending map exactly as they were. -/
theorem claim2_malformed_skipped (st st' : ClientState) (msgs : List RawMsg)
    (h : receiveMany st msgs = .ok st') :
    receiveMany st (.malformed :: msgs) = .ok st' ∧
    st'.ws = st.ws ∧ st'.pendingIds = st.pendingIds := by
  refine ⟨h, ?_⟩
  induction msgs generalizing st with
  | nil => cases h; exact ⟨rfl, rfl⟩
  | cons m rest ih =>
    cases m with
    | malformed => exact ih st h
    | frame data =>
      unfold receiveMany at h
      cases hh : handle_response st data with
      | none => rw [hh] at h; cases h
      | some st1 =>
        rw [hh] at h
        obtain ⟨hws, -, -, hpend⟩ := handle_response_frame_fields st st1 data hh
        obtain ⟨hws', hpend'⟩ := ih st1 h
        exact ⟨hws'.trans hws, hpend'.trans hpend⟩

/-- Witness for C2's amended theorem at a concrete run: skipping the
malformed message, the later frame still resolves request 1, with the
websocket and pending map untouched. -/
theorem claim2_malformed_skipped_witness :
    receiveMany clientWithPending1
        [.malformed, .frame [("id", .num 1), ("result", .num 42)]]
      = .ok (completeFuture clientWithPending1 1 (.result (.num 42))) ∧
    (completeFuture clientWithPending1 1 (.result (.num 42))).ws
      = clientWithPending1.ws ∧
    (completeFuture clientWithPending1 1 (.result (.num 42))).pendingIds
      = clientWithPending1.pendingIds :=
  claim2_malformed_skipped clientWithPending1 _
    [.frame [("id", .num 1), ("result", .num 42)]] rfl

/-- Claim C1, counterexample: with request 1 in flight, transport
closure observed by the receive loop (`except ConnectionClosed: pass`)
completes nothing — request 1 is left pending, to hang until its own
timeout — and an explicit `disconnect` completes it by cancellation
(`future.cancel()`), not with a ConnectionError failure. Either branch
refutes "every outstanding PendingRequest is completed with a
ConnectionError (connection-closed) failure". -/
theorem claim1_counterexample :
    receiveLoopOnClosed clientWithPending1 = clientWithPending1 ∧
    lookupFuture (receiveLoopOnClosed clientWithPending1) 1 = some .pending ∧
    isConnClosedCompletion (lookupFuture (receiveLoopOnClosed clientWithPending1) 1)
      = false ∧
    lookupFuture (disconnect clientWithPending1) 1 = some .cancelled ∧
    isConnClosedCompletion (lookupFuture (disconnect clientWithPending1) 1) = false :=
  ⟨rfl, rfl, rfl, rfl, rfl⟩

/-- Claim C1 (amended): transport closure detected by the receive loop
completes no pending request (the loop exits leaving the state
untouched; each in-flight call is left to its own timeout); an explicit
`disconnect` completes every outstanding not-yet-done PendingRequest by
cancellation — not with a ConnectionError — and clears the pending
map. -/
theorem claim1_close_behaviour (st : ClientState) (i : Nat)
    (hp : st.pendingIds.contains i = true)
    (hf : lookupFuture st i = some .pending) :
    receiveLoopOnClosed st = st ∧
    lookupFuture (disconnect st) i = some .cancelled ∧
    (disconnect st).pendingIds = [] := by
  refine ⟨rfl, ?_, rfl⟩
  show lookupFuture (disconnect st) i = some FutureVal.cancelled
  unfold lookupFuture at hf ⊢
  unfold disconnect cancelPendingFutures
  simp only
  rw [find_map_keyed _ i _ (fun p => by split <;> rfl)]
  obtain ⟨p, hpfind, hpv⟩ :
      ∃ p, st.futures.find? (fun p => p.1 == i) = some p ∧ p.2 = .pending := by
    cases hfind : st.futures.find? (fun p => p.1 == i) with
    | none => rw [hfind] at hf; simp at hf
    | some p => rw [hfind] at hf; exact ⟨p, rfl, by simpa using hf⟩
  have hkey : p.1 = i := by
    have := List.find?_some hpfind
    simpa using this
  rw [hpfind]
  have hmem : i ∈ st.pendingIds := by simpa using hp
  simp [hkey, hmem, hpv, FutureVal.done]

/-- Witness for C1's amended theorem: the connected client with request
1 pending. -/
theorem claim1_close_behaviour_witness :
    receiveLoopOnClosed clientWithPending1 = clientWithPending1 ∧
    lookupFuture (disconnect clientWithPending1) 1 = some .cancelled ∧
    (disconnect clientWithPending1).pendingIds = [] :=
  claim1_close_behaviour clientWithPending1 1 rfl rfl

/-- Claim C7: with no connection (`self._ws` unset), `send` raises
`ConnectionError` at once — state unchanged, nothing written to the
transport, no PendingRequest registered; `disconnect` is idempotent and
leaves a closed state (`ws` down) in which every subsequent `send`
fails the same fast way, again without touching transport or state. -/
theorem claim7_fail_fast (st st2 : ClientState) (hws : st.ws = false)
    (method : String) (params : Option (List (String × JValue))) (T : ℚ)
    (reply : Option (ℚ × List (String × JValue))) :
    sendRun st method params T reply =
      { state := st, result := .raised (.connectionError "Not connected to Godot"),
        time := 0, wrote := none } ∧
    disconnect (disconnect st2) = disconnect st2 ∧
    (disconnect st2).ws = false ∧
    sendRun (disconnect st2) method params T reply =
      { state := disconnect st2,
        result := .raised (.connectionError "Not connected to Godot"),
        time := 0, wrote := none } := by
  have hsend : ∀ s : ClientState, s.ws = false →
      sendRun s method params T reply =
        { state := s, result := .raised (.connectionError "Not connected to Godot"),
          time := 0, wrote := none } := by
    intro s hs
    unfold sendRun
    rw [hs]
    rfl
  refine ⟨hsend st hws, ?_, rfl, hsend _ rfl⟩
  unfold disconnect cancelPendingFutures
  simp

/-- Witness for C7 at a fresh (never-connected) client and a client
disconnected with a request in flight. -/
theorem claim7_fail_fast_witness :
    sendRun ClientState.init "ping" none 30 none =
      { state := ClientState.init,
        result := .raised (.connectionError "Not connected to Godot"),
        time := 0, wrote := none } ∧
    disconnect (disconnect clientWithPending1) = disconnect clientWithPending1 ∧
    (disconnect clientWithPending1).ws = false ∧
    sendRun (disconnect clientWithPending1) "ping" none 30 none =
      { state := disconnect clientWithPending1,
        result := .raised (.connectionError "Not connected to Godot"),
        time := 0, wrote := none } :=
  claim7_fail_fast ClientState.init clientWithPending1 rfl "ping" none 30 none

/-- `cancelFutureIfPending` touches only the future ledger. -/
theorem pendingIds_cancelFutureIfPending (st : ClientState) (i : Nat) :
    (cancelFutureIfPending st i).pendingIds = st.pendingIds := by
  unfold cancelFutureIfPending
  repeat' split
  all_goals rfl

/-- Claim C3: a `send(method, params, timeout)` whose matching response
never arrives fails with the repo's `TimeoutError` (RequestTimeout)
carrying the method and timeout, exactly at the deadline (model
granularity zero — not earlier, not later), and on expiry the pending
entry for the assigned id (`requestId + 1`) is gone from the map
(`finally: pop`). -/
theorem claim3_request_expiry (st : ClientState) (hws : st.ws = true)
    (method : String) (params : Option (List (String × JValue))) (T : ℚ) :
    (sendRun st method params T none).result = .raised (.timeoutError method T) ∧
    (sendRun st method params T none).time = T ∧
    (st.requestId + 1) ∉ (sendRun st method params T none).state.pendingIds := by
  have hrun : sendRun st method params T none =
      sendTimeoutEnd (sendStart st).1 (sendStart st).2 method T
        (buildRequest (sendStart st).2 method params) := by
    unfold sendRun
    rw [hws]
    rfl
  rw [hrun]
  refine ⟨rfl, rfl, ?_⟩
  unfold sendTimeoutEnd popPending
  simp only [pendingIds_cancelFutureIfPending]
  intro hmem
  have := (List.mem_filter.mp hmem).2
  simp [sendStart] at this

/-- Witness for C3: request 1 on a fresh connected client, 30s deadline. -/
theorem claim3_request_expiry_witness :
    (sendRun connectedClient "get_property" none 30 none).result
      = .raised (.timeoutError "get_property" 30) ∧
    (sendRun connectedClient "get_property" none 30 none).time = 30 ∧
    (connectedClient.requestId + 1)
      ∉ (sendRun connectedClient "get_property" none 30 none).state.pendingIds :=
  claim3_request_expiry connectedClient rfl "get_property" none 30

/-- Reduction of `handle_response` for a frame whose `id` member is the
integer `m`. -/
theorem handle_response_num (st : ClientState) (data : List (String × JValue))
    (m : Int) (hid : dictGet data "id" = some (.num m)) :
    handle_response st data =
      (match st.pendingIds.find? (fun k => keyMatch (.num m) k) with
       | none => some st
       | some i =>
         match lookupFuture st i with
         | none => some st
         | some fv =>
           if fv.done then some st
           else
             match dictGet data "error" with
             | some (.obj err) =>
                 some (completeFuture st i
                   (.exn (.commandError ((dictGet err "message").getD (.str "Unknown error"))
                                        ((dictGet err "code").getD .null))))
             | some _ => none
             | none =>
                 some (completeFuture st i (.result ((dictGet data "result").getD .null)))) := by
  unfold handle_response
  rw [hid]

/-- Two pending-map keys matched by the same integer frame id coincide. -/
theorem keyMatch_num_unique (m : Int) (j k : Nat) (hj : keyMatch (.num m) j = true)
    (hk : keyMatch (.num m) k = true) : j = k := by
  unfold keyMatch at hj hk
  simp only [beq_iff_eq] at hj hk
  omega

/-- Claim C4: routing of an incoming `Response`/`ResponseError` frame
with integer id `m`. If no pending entry matches `m`, or the matching
future is already done, `_handle_response` is a no-op on all client
state (the frame is silently dropped). If the matching future is still
pending, it is completed with exactly the frame's outcome (error →
`CommandError`, else the result value), it then counts as done, the
owning `send`'s `finally` removes the id from the pending map, and any
later frame carrying the same id is a no-op both before and after that
removal — each PendingRequest is completed by at most one writer. -/
theorem claim4_response_routing (st : ClientState)
    (data data2 : List (String × JValue)) (m : Int)
    (hid : dictGet data "id" = some (.num m))
    (hid2 : dictGet data2 "id" = some (.num m)) :
    (st.pendingIds.find? (fun k => keyMatch (.num m) k) = none →
        handle_response st data = some st) ∧
    (∀ i fv, st.pendingIds.find? (fun k => keyMatch (.num m) k) = some i →
        lookupFuture st i = some fv → fv.done = true →
        handle_response st data = some st) ∧
    (∀ i, st.pendingIds.find? (fun k => keyMatch (.num m) k) = some i →
        lookupFuture st i = some .pending → errorShapeOk data = true →
        handle_response st data = some (completeFuture st i (frameOutcome data)) ∧
        (frameOutcome data).done = true ∧
        lookupFuture (completeFuture st i (frameOutcome data)) i
          = some (frameOutcome data) ∧
        i ∉ (popPending (completeFuture st i (frameOutcome data)) i).pendingIds ∧
        handle_response (completeFuture st i (frameOutcome data)) data2
          = some (completeFuture st i (frameOutcome data)) ∧
        handle_response (popPending (completeFuture st i (frameOutcome data)) i) data2
          = some (popPending (completeFuture st i (frameOutcome data)) i)) := by
  refine ⟨?_, ?_, ?_⟩
  · intro h
    rw [handle_response_num st data m hid, h]
  · intro i fv hfind hfut hdone
    rw [handle_response_num st data m hid]
    simp only [hfind, hfut, hdone, if_true]
  · intro i hfind hfut hshape
    have hmatch : keyMatch (.num m) i = true := by
      have := List.find?_some hfind
      simpa using this
    have hmain : handle_response st data = some (completeFuture st i (frameOutcome data)) := by
      rw [handle_response_num st data m hid]
      simp only [hfind, hfut, FutureVal.done, Bool.false_eq_true, if_false]
      show (match dictGet data "error" with
            | some (.obj err) =>
                some (completeFuture st i
                  (.exn (.commandError ((dictGet err "message").getD (.str "Unknown error"))
                                       ((dictGet err "code").getD .null))))
            | some _ => none
            | none =>
                some (completeFuture st i (.result ((dictGet data "result").getD .null))))
          = some (completeFuture st i (frameOutcome data))
      unfold frameOutcome
      unfold errorShapeOk at hshape
      cases herr : dictGet data "error" with
      | none => rfl
      | some v =>
        rw [herr] at hshape
        cases v <;> first | rfl | (exact absurd hshape (by simp))
    have hdone : (frameOutcome data).done = true := by
      unfold frameOutcome
      unfold errorShapeOk at hshape
      cases herr : dictGet data "error" with
      | none => rfl
      | some v =>
        rw [herr] at hshape
        cases v <;> first | rfl | (exact absurd hshape (by simp))
    have hlook : lookupFuture (completeFuture st i (frameOutcome data)) i
        = some (frameOutcome data) :=
      lookupFuture_completeFuture_self st i .pending _ hfut
    have hpends : (completeFuture st i (frameOutcome data)).pendingIds
        = st.pendingIds := rfl
    refine ⟨hmain, hdone, hlook, ?_, ?_, ?_⟩
    · intro hmem
      have := (List.mem_filter.mp hmem).2
      simp at this
    · rw [handle_response_num _ data2 m hid2]
      rw [show (completeFuture st i (frameOutcome data)).pendingIds.find?
              (fun k => keyMatch (.num m) k)
            = some i from hpends ▸ hfind]
      simp only [hlook, hdone, if_true]
    · rw [handle_response_num _ data2 m hid2]
      have hnone : (popPending (completeFuture st i (frameOutcome data)) i).pendingIds.find?
          (fun k => keyMatch (.num m) k) = none := by
        rw [List.find?_eq_none]
        intro k hk
        have hkne : k ≠ i := by
          have := (List.mem_filter.mp hk).2
          simpa using this
        intro hkm
        exact hkne (keyMatch_num_unique m k i hkm hmatch)
      simp only [hnone]

/-- `cancelFutureIfPending` leaves `requestId` alone. -/
theorem cancelFutureIfPending_requestId (st : ClientState) (i : Nat) :
    (cancelFutureIfPending st i).requestId = st.requestId := by
  unfold cancelFutureIfPending
  repeat' split
  all_goals rfl

/-- No atomic step ever decreases the request-id counter (`disconnect`
and `connect` leave `_request_id` alone; only the registration step
bumps it). -/
theorem stepOp_requestId (st : ClientState) (op : Op) :
    st.requestId ≤ (stepOp st op).1.requestId := by
  cases op with
  | connect => exact le_refl _
  | sendBegin =>
    show st.requestId ≤
      (if st.ws = true then ((sendStart st).1, some (sendStart st).2) else (st, none)).1.requestId
    by_cases h : st.ws = true
    · simp [h, sendStart]
    · simp [h]
  | deliver m =>
    cases m with
    | malformed => exact le_refl _
    | frame data =>
      show st.requestId ≤
        (match receiveMany st [.frame data] with
         | .ok st1 => st1
         | .crashed st1 => st1).requestId
      unfold receiveMany
      cases hh : handle_response st data with
      | none => exact le_refl _
      | some st1 =>
        have := (handle_response_frame_fields st st1 data hh).2.2.1
        show st.requestId ≤ st1.requestId
        exact this.ge
  | closed => exact le_refl _
  | awaitTimeout i =>
    show st.requestId ≤ (popPending (cancelFutureIfPending st i) i).requestId
    show st.requestId ≤ (cancelFutureIfPending st i).requestId
    rw [cancelFutureIfPending_requestId]
  | resumePop i => exact le_refl _
  | disc => exact le_refl _

/-- The only step that reports an assigned id is `send`'s registration on
a connected client; it assigns `requestId + 1` and leaves the counter at
that value. -/
theorem stepOp_assign (st : ClientState) (op : Op) (i : Nat)
    (h : (stepOp st op).2 = some i) :
    i = st.requestId + 1 ∧ (stepOp st op).1.requestId = i := by
  cases op with
  | sendBegin =>
    have h' : (if st.ws = true then ((sendStart st).1, some (sendStart st).2)
               else (st, none)).2 = some i := h
    by_cases hws : st.ws = true
    · rw [if_pos hws] at h'
      have hi : st.requestId + 1 = i := by simpa [sendStart] using h'
      refine ⟨hi.symm, ?_⟩
      show (if st.ws = true then ((sendStart st).1, some (sendStart st).2)
            else (st, none)).1.requestId = i
      rw [if_pos hws]
      simpa [sendStart] using hi
    · rw [if_neg hws] at h'
      cases h'
  | connect => cases h
  | deliver m => simp [stepOp] at h
  | closed => cases h
  | awaitTimeout j => cases h
  | resumePop j => cases h
  | disc => cases h

/-- Every id assigned along a trace exceeds the counter at its start. -/
theorem runOps_ids_gt (st : ClientState) (ops : List Op) :
    ∀ i ∈ (runOps st ops).2, st.requestId < i := by
  induction ops generalizing st with
  | nil => intro i h; simp [runOps] at h
  | cons op ops ih =>
    intro i h
    unfold runOps at h
    simp only [List.mem_append] at h
    rcases h with h | h
    · cases ha : (stepOp st op).2 with
      | none => rw [ha] at h; simp at h
      | some j =>
        rw [ha] at h
        simp at h
        subst h
        have := (stepOp_assign st op i ha).1
        omega
    · have h2 := ih (stepOp st op).1 i h
      have h1 := stepOp_requestId st op
      omega

/-- Claim C5: along any interleaving of the client's atomic steps — each
`send` registration (`self._request_id += 1` and the future-store run
with no intervening `await`, hence atomic under asyncio's cooperative
scheduling), receive-loop deliveries, timeouts, pops, connects and
disconnects — the request ids handed out are strictly increasing in
order of assignment: every id is strictly greater than all earlier ones,
so ids never repeat within (or even across reconnects of) one client,
and no two concurrent callers can receive the same id. -/
theorem claim5_ids_strictly_increasing (st : ClientState) (ops : List Op) :
    ((runOps st ops).2).Pairwise (· < ·) := by
  induction ops generalizing st with
  | nil => simp [runOps]
  | cons op ops ih =>
    unfold runOps
    simp only
    cases ha : (stepOp st op).2 with
    | none => simpa using ih (stepOp st op).1
    | some j =>
      simp only [Option.toList_some, List.singleton_append, List.pairwise_cons]
      refine ⟨?_, ih _⟩
      intro b hb
      have hgt := runOps_ids_gt (stepOp st op).1 ops b hb
      have := (stepOp_assign st op j ha).2
      omega

/-- A connected client with request 1 in flight (future pending) and
request 2 already resolved but not yet popped by its sender. -/
def clientTwoPending : ClientState :=
  { ws := true, receiveTask := true, requestId := 2,
    futures := [(1, .pending), (2, .result (.num 5))], pendingIds := [1, 2] }

/-- Witness for C4 at `clientTwoPending`: a frame for unknown id 3 is
dropped; a frame for id 2 (whose future is already done) is dropped; a
frame for id 1 completes the pending future with its outcome, the pop
removes the entry, and a later error frame for id 1 is a no-op both
before and after the pop. -/
theorem claim4_response_routing_witness :
    handle_response clientTwoPending [("id", .num 3), ("result", .num 9)]
      = some clientTwoPending ∧
    handle_response clientTwoPending [("id", .num 2), ("result", .num 9)]
      = some clientTwoPending ∧
    (handle_response clientTwoPending [("id", .num 1), ("result", .num 9)]
       = some (completeFuture clientTwoPending 1
           (frameOutcome [("id", .num 1), ("result", .num 9)])) ∧
     (frameOutcome [("id", .num 1), ("result", .num 9)]).done = true ∧
     lookupFuture (completeFuture clientTwoPending 1
         (frameOutcome [("id", .num 1), ("result", .num 9)])) 1
       = some (frameOutcome [("id", .num 1), ("result", .num 9)]) ∧
     1 ∉ (popPending (completeFuture clientTwoPending 1
         (frameOutcome [("id", .num 1), ("result", .num 9)])) 1).pendingIds ∧
     handle_response (completeFuture clientTwoPending 1
         (frameOutcome [("id", .num 1), ("result", .num 9)]))
         [("id", .num 1), ("error", .obj [("message", .str "late")])]
       = some (completeFuture clientTwoPending 1
           (frameOutcome [("id", .num 1), ("result", .num 9)])) ∧
     handle_response (popPending (completeFuture clientTwoPending 1
         (frameOutcome [("id", .num 1), ("result", .num 9)])) 1)
         [("id", .num 1), ("error", .obj [("message", .str "late")])]
       = some (popPending (completeFuture clientTwoPending 1
           (frameOutcome [("id", .num 1), ("result", .num 9)])) 1)) := by
  refine ⟨?_, ?_, ?_⟩
  · exact (claim4_response_routing clientTwoPending
      [("id", .num 3), ("result", .num 9)]
      [("id", .num 3), ("result", .num 9)] 3 rfl rfl).1 rfl
  · exact (claim4_response_routing clientTwoPending
      [("id", .num 2), ("result", .num 9)]
      [("id", .num 2), ("result", .num 9)] 2 rfl rfl).2.1 2 (.result (.num 5)) rfl rfl rfl
  · exact (claim4_response_routing clientTwoPending
      [("id", .num 1), ("result", .num 9)]
      [("id", .num 1), ("error", .obj [("message", .str "late")])] 1 rfl rfl).2.2
      1 rfl rfl rfl

/-- An attempt that does not exit the loop: an unsatisfying return, or a
raise caught by `except (NodeNotFoundError, Exception)`. -/
def attemptMisses (expected : Option JValue) : AttemptRes → Bool
  | .ret v => !satisfiedBy expected v
  | .raise e nnf => caughtByWaitFor e nnf

/-- What the loop body can observe of one attempt: a satisfying value,
a miss, or an uncaught exception. -/
def viewAttempt (expected : Option JValue) : AttemptRes → Option (Option JValue)
  | .ret v => if satisfiedBy expected v then some (some v) else some none
  | .raise e nnf => if caughtByWaitFor e nnf then some none else none

/-- The fuel allowance covers the deadline: `⌈T / I⌉.toNat` poll
instants of length `I` reach time `T`. -/
theorem le_ceilNat_mul (T I : ℚ) (hI : 0 < I) :
    T ≤ ((⌈T / I⌉.toNat : ℚ)) * I := by
  rcases le_or_lt T 0 with hT | hT
  · have h0 : (0:ℚ) ≤ ((⌈T / I⌉.toNat : ℚ)) * I :=
      mul_nonneg (by positivity) hI.le
    linarith
  · have hceil : (0:ℤ) < ⌈T / I⌉ := Int.ceil_pos.mpr (by positivity)
    have htn : ((⌈T / I⌉.toNat : ℚ)) = ((⌈T / I⌉ : ℤ) : ℚ) := by
      exact_mod_cast congrArg (fun z : ℤ => (z : ℚ)) (Int.toNat_of_nonneg hceil.le)
    have h1 : T / I ≤ ((⌈T / I⌉ : ℤ) : ℚ) := Int.le_ceil _
    have h2 : (T / I) * I = T := div_mul_cancel₀ T hI.ne'
    rw [htn]
    calc T = (T / I) * I := h2.symm
      _ ≤ ((⌈T / I⌉ : ℤ) : ℚ) * I := mul_le_mul_of_nonneg_right h1 hI.le

/-- When every attempt misses, the loop raises `TimeoutError` at exactly
the first attempt index `N` whose time `N * I` has reached the deadline. -/
theorem waitLoopF_timeout_first (T I : ℚ) (pred : Nat → AttemptRes)
    (expected : Option JValue) (N : Nat)
    (hmiss : ∀ j, attemptMisses expected (pred j) = true)
    (hN : T ≤ (N : ℚ) * I)
    (hmin : ∀ j : Nat, j < N → ¬ T ≤ (j : ℚ) * I) :
    ∀ fuel k, k ≤ N → N + 1 ≤ k + fuel →
      waitLoopF T I pred expected k fuel = some (.timeout N) := by
  intro fuel
  induction fuel with
  | zero => intro k h1 h2; omega
  | succ fuel ih =>
    intro k hk hfl
    rw [waitLoopF]
    have hnext :
        (if T ≤ (k : ℚ) * I then some (WaitOutcome.timeout k)
         else waitLoopF T I pred expected (k+1) fuel) = some (.timeout N) := by
      rcases Nat.lt_or_ge k N with hlt | hge
      · rw [if_neg (hmin k hlt)]
        exact ih (k+1) hlt (by omega)
      · have hkN : k = N := le_antisymm hk hge
        subst hkN
        rw [if_pos hN]
    have hm := hmiss k
    cases hp : pred k with
    | ret v =>
      rw [hp] at hm
      have hsat : satisfiedBy expected v = false := by
        simpa [attemptMisses] using hm
      simp only [hsat, Bool.false_eq_true, if_false]
      exact hnext
    | raise e nnf =>
      rw [hp] at hm
      have hc : caughtByWaitFor e nnf = true := by
        simpa [attemptMisses] using hm
      simp only [hc, if_true]
      exact hnext

/-- When every attempt before `M` misses without reaching the deadline
and attempt `M` returns a satisfying value, the loop returns that value
at attempt `M`. -/
theorem waitLoopF_success_first (T I : ℚ) (pred : Nat → AttemptRes)
    (expected : Option JValue) (M : Nat) (w : JValue)
    (hmiss : ∀ j, j < M → attemptMisses expected (pred j) = true)
    (hM : pred M = .ret w) (hsat : satisfiedBy expected w = true)
    (hlt : ∀ j : Nat, j < M → ¬ T ≤ (j : ℚ) * I) :
    ∀ fuel k, k ≤ M → M + 1 ≤ k + fuel →
      waitLoopF T I pred expected k fuel = some (.success M w) := by
  intro fuel
  induction fuel with
  | zero => intro k h1 h2; omega
  | succ fuel ih =>
    intro k hk hfl
    rw [waitLoopF]
    rcases Nat.lt_or_ge k M with hklt | hge
    · have hnext :
          (if T ≤ (k : ℚ) * I then some (WaitOutcome.timeout k)
           else waitLoopF T I pred expected (k+1) fuel) = some (.success M w) := by
        rw [if_neg (hlt k hklt)]
        exact ih (k+1) hklt (by omega)
      have hm := hmiss k hklt
      cases hp : pred k with
      | ret v =>
        rw [hp] at hm
        have hs : satisfiedBy expected v = false := by
          simpa [attemptMisses] using hm
        simp only [hs, Bool.false_eq_true, if_false]
        exact hnext
      | raise e nnf =>
        rw [hp] at hm
        have hc : caughtByWaitFor e nnf = true := by
          simpa [attemptMisses] using hm
        simp only [hc, if_true]
        exact hnext
    · have hkM : k = M := le_antisymm hk hge
      subst hkM
      rw [hM]
      simp only [hsat, if_true]

/-- With every raise caught, the loop always terminates within the fuel
allowance, and only by a satisfying return or by `TimeoutError` at an
attempt at or past the deadline. -/
theorem waitLoopF_term (T I : ℚ) (pred : Nat → AttemptRes)
    (expected : Option JValue)
    (hcaught : ∀ j e n, pred j = .raise e n → caughtByWaitFor e n = true) :
    ∀ (fuel k N : Nat), k ≤ N → N + 1 ≤ k + fuel → T ≤ (N : ℚ) * I →
      ∃ o, waitLoopF T I pred expected k fuel = some o
        ∧ (∀ j, o ≠ .uncaught j)
        ∧ (∀ j, o = .timeout j → T ≤ (j : ℚ) * I)
        ∧ (∀ j v, o = .success j v → satisfiedBy expected v = true) := by
  intro fuel
  induction fuel with
  | zero => intro k N h1 h2; omega
  | succ fuel ih =>
    intro k N hk hfl hN
    rw [waitLoopF]
    by_cases hdl : T ≤ (k : ℚ) * I
    · have hnext :
          (if T ≤ (k : ℚ) * I then some (WaitOutcome.timeout k)
           else waitLoopF T I pred expected (k+1) fuel) = some (.timeout k) :=
        if_pos hdl
      cases hp : pred k with
      | ret v =>
        by_cases hs : satisfiedBy expected v = true
        · exact ⟨.success k v, by simp only [hs, if_true], by simp, by simp,
            fun j u h => by cases h; exact hs⟩
        · refine ⟨.timeout k, ?_, by simp, ?_, by simp⟩
          · simp only [Bool.not_eq_true] at hs
            simp only [hs, Bool.false_eq_true, if_false]
            exact hnext
          · intro j h
            cases h
            exact hdl
      | raise e n =>
        refine ⟨.timeout k, ?_, by simp, ?_, by simp⟩
        · simp only [hcaught k e n hp, if_true]
          exact hnext
        · intro j h
          cases h
          exact hdl
    · have hkN : k < N := by
        rcases Nat.lt_or_ge k N with h | h
        · exact h
        · exact absurd (le_antisymm hk h ▸ hN) hdl
      obtain ⟨o, ho, h1, h2, h3⟩ := ih (k+1) N hkN (by omega) hN
      have hnext :
          (if T ≤ (k : ℚ) * I then some (WaitOutcome.timeout k)
           else waitLoopF T I pred expected (k+1) fuel) = some o := by
        rw [if_neg hdl]; exact ho
      cases hp : pred k with
      | ret v =>
        by_cases hs : satisfiedBy expected v = true
        · exact ⟨.success k v, by simp only [hs, if_true], by simp, by simp,
            fun j u h => by cases h; exact hs⟩
        · refine ⟨o, ?_, h1, h2, h3⟩
          simp only [Bool.not_eq_true] at hs
          simp only [hs, Bool.false_eq_true, if_false]
          exact hnext
      | raise e n =>
        refine ⟨o, ?_, h1, h2, h3⟩
        simp only [hcaught k e n hp, if_true]
        exact hnext

/-- The loop's outcome depends on an attempt only through what the body
observes of it (`viewAttempt`): satisfying value, miss, or uncaught. -/
theorem waitLoopF_congr (T I : ℚ) (pred pred' : Nat → AttemptRes)
    (expected : Option JValue)
    (h : ∀ j, viewAttempt expected (pred j) = viewAttempt expected (pred' j)) :
    ∀ fuel k, waitLoopF T I pred expected k fuel
            = waitLoopF T I pred' expected k fuel := by
  intro fuel
  induction fuel with
  | zero => intro k; rfl
  | succ fuel ih =>
    intro k
    rw [waitLoopF, waitLoopF]
    have hk := h k
    cases hp : pred k with
    | ret v =>
      cases hq : pred' k with
      | ret v' =>
        rw [hp, hq] at hk
        unfold viewAttempt at hk
        by_cases hs : satisfiedBy expected v = true <;>
          by_cases hs' : satisfiedBy expected v' = true <;>
            simp only [hs, hs', if_true, if_false, Bool.not_eq_true] at hk ⊢ <;>
              simp_all [ih (k+1)]
      | raise e n =>
        rw [hp, hq] at hk
        unfold viewAttempt at hk
        by_cases hs : satisfiedBy expected v = true <;>
          by_cases hc : caughtByWaitFor e n = true <;>
            simp only [hs, hc, if_true, if_false, Bool.not_eq_true] at hk ⊢ <;>
              simp_all [ih (k+1)]
    | raise e n =>
      cases hq : pred' k with
      | ret v' =>
        rw [hp, hq] at hk
        unfold viewAttempt at hk
        by_cases hc : caughtByWaitFor e n = true <;>
          by_cases hs' : satisfiedBy expected v' = true <;>
            simp only [hc, hs', if_true, if_false, Bool.not_eq_true] at hk ⊢ <;>
              simp_all [ih (k+1)]
      | raise e' n' =>
        rw [hp, hq] at hk
        unfold viewAttempt at hk
        by_cases hc : caughtByWaitFor e n = true <;>
          by_cases hc' : caughtByWaitFor e' n' = true <;>
            simp only [hc, hc', if_true, if_false, Bool.not_eq_true] at hk ⊢ <;>
              simp_all [ih (k+1)]

/-- Claim C8, counterexample: `_wait_for` with `timeout=1, interval=10`
and a never-true predicate sleeps the full 10-second interval past the
1-second deadline: its attempts are at times 0 and 10 only, the final
attempt and the `TimeoutError` land at time `1 * 10 = 10` — not "at or
very near the deadline" and not "approximately T" (it misses even a
tolerance of a full extra second, `10 ≰ 1 + 1`; the overshoot is 9s on a
1s deadline). The loop does oversleep past the deadline. -/
theorem claim8_counterexample :
    waitForRun 1 10 (fun _ => .ret .null) none = some (.timeout 1) ∧
    ((1 : Nat) : ℚ) * 10 = 10 ∧
    ¬ ((10 : ℚ) ≤ 1 + 1) := by
  refine ⟨?_, by norm_num, by norm_num⟩
  have hb : attemptsBound 1 10 = 2 := by
    unfold attemptsBound
    have hc : (⌈(1 : ℚ) / 10⌉ : ℤ) = 1 := by
      rw [Int.ceil_eq_iff]
      constructor <;> norm_num
    rw [hc]
    rfl
  unfold waitForRun
  rw [hb]
  rw [waitLoopF]
  norm_num [satisfiedBy, truthy]
  rw [waitLoopF]
  norm_num [satisfiedBy, truthy]

/-- Claim C8 (amended): the loop sleeps the full `interval` between
attempts without clamping to the remaining time, so attempts happen at
times `0, I, 2I, …` and the loop exits at the first poll instant at or
past the relevant time. A predicate that never becomes true fails with
`TimeoutError` at the first attempt time `N*I ≥ T`, which lies in
`[T, T + I)` — up to one full interval past the deadline. A predicate
that becomes (and stays) true at time `t < T` returns at the first
attempt time `M*I ≥ t`, within `[t, t + I)`. -/
theorem claim8_poll_timing (T I : ℚ) (expected : Option JValue)
    (hI : 0 < I) (hT : 0 < T) :
    (∀ pred : Nat → AttemptRes,
       (∀ j, attemptMisses expected (pred j) = true) →
       ∃ N : Nat, waitForRun T I pred expected = some (.timeout N) ∧
         T ≤ (N : ℚ) * I ∧ (N : ℚ) * I < T + I) ∧
    (∀ (pred : Nat → AttemptRes) (t : ℚ), 0 ≤ t → t < T →
       (∀ j : Nat, ¬ t ≤ (j : ℚ) * I → attemptMisses expected (pred j) = true) →
       (∀ j : Nat, t ≤ (j : ℚ) * I →
          ∃ w, pred j = .ret w ∧ satisfiedBy expected w = true) →
       ∃ (M : Nat) (w : JValue),
         waitForRun T I pred expected = some (.success M w) ∧
         t ≤ (M : ℚ) * I ∧ (M : ℚ) * I < t + I) := by
  constructor
  · intro pred hmiss
    have hex : ∃ n : Nat, T ≤ (n : ℚ) * I := ⟨_, le_ceilNat_mul T I hI⟩
    refine ⟨Nat.find hex, ?_, Nat.find_spec hex, ?_⟩
    · unfold waitForRun
      refine waitLoopF_timeout_first T I pred expected (Nat.find hex) hmiss
        (Nat.find_spec hex) (fun j hj => Nat.find_min hex hj) _ 0 (Nat.zero_le _) ?_
      have hle : Nat.find hex ≤ ⌈T / I⌉.toNat :=
        Nat.find_min' hex (le_ceilNat_mul T I hI)
      unfold attemptsBound
      omega
    · rcases hfind : Nat.find hex with _ | m
      · exfalso
        have := Nat.find_spec hex
        rw [hfind] at this
        push_cast at this
        nlinarith
      · have hm : ¬ T ≤ (m : ℚ) * I := Nat.find_min hex (by omega)
        push_cast
        push_cast at hm
        nlinarith
  · intro pred t ht0 htT hmiss hhit
    have hex : ∃ n : Nat, t ≤ (n : ℚ) * I := ⟨_, le_ceilNat_mul t I hI⟩
    obtain ⟨w, hw, hsw⟩ := hhit (Nat.find hex) (Nat.find_spec hex)
    refine ⟨Nat.find hex, w, ?_, Nat.find_spec hex, ?_⟩
    · unfold waitForRun
      refine waitLoopF_success_first T I pred expected (Nat.find hex) w
        (fun j hj => hmiss j (Nat.find_min hex hj)) hw hsw
        (fun j hj => ?_) _ 0 (Nat.zero_le _) ?_
      · have hjt : ¬ t ≤ (j : ℚ) * I := Nat.find_min hex hj
        push_cast at hjt ⊢
        nlinarith
      · have hle : Nat.find hex ≤ ⌈T / I⌉.toNat := by
          refine Nat.find_min' hex ?_
          have := le_ceilNat_mul T I hI
          linarith
        unfold attemptsBound
        omega
    · rcases hfind : Nat.find hex with _ | m
      · push_cast
        nlinarith
      · have hm : ¬ t ≤ (m : ℚ) * I := Nat.find_min hex (by omega)
        push_cast
        push_cast at hm
        nlinarith

/-- Witness for C8's amended theorem: with `timeout=1, interval=1` a
never-true predicate times out at an attempt in `[1, 2)`, and an
immediately-true predicate (true from `t = 0`) succeeds at an attempt in
`[0, 1)`. -/
theorem claim8_poll_timing_witness :
    (∃ N : Nat, waitForRun 1 1 (fun _ => .ret .null) none = some (.timeout N) ∧
       (1 : ℚ) ≤ (N : ℚ) * 1 ∧ (N : ℚ) * 1 < 1 + 1) ∧
    (∃ (M : Nat) (w : JValue),
       waitForRun 1 1 (fun _ => .ret (.num 7)) none = some (.success M w) ∧
       (0 : ℚ) ≤ (M : ℚ) * 1 ∧ (M : ℚ) * 1 < 0 + 1) := by
  have h := claim8_poll_timing 1 1 none (by norm_num) (by norm_num)
  exact ⟨h.1 (fun _ => .ret .null) (fun j => rfl),
         h.2 (fun _ => .ret (.num 7)) 0 (by norm_num) (by norm_num)
           (fun j hj => absurd (by positivity) hj)
           (fun j hj => ⟨.num 7, rfl, rfl⟩)⟩

/-- Claim C10: in `Godot._wait_for`, `except (NodeNotFoundError,
Exception)` swallows every raised exception whose class derives from
`Exception` — not only the transient not-found case — and treats it
exactly as "not yet satisfied": the run is unchanged if each such raise
is replaced by any attempt the body views as a miss. Consequently the
loop always terminates, and only by returning a satisfying value or by
raising `TimeoutError` at an attempt at or past the deadline — never by
a leaked predicate exception. -/
theorem claim10_exceptions_swallowed (T I : ℚ) (expected : Option JValue)
    (pred : Nat → AttemptRes) (hI : 0 < I)
    (hexc : ∀ j e n, pred j = .raise e n → e = true) :
    (∀ j e n, pred j = .raise e n → viewAttempt expected (pred j) = some none) ∧
    (∀ pred' : Nat → AttemptRes,
       (∀ j, viewAttempt expected (pred j) = viewAttempt expected (pred' j)) →
       waitForRun T I pred expected = waitForRun T I pred' expected) ∧
    (∃ o, waitForRun T I pred expected = some o ∧
       (∀ k, o ≠ .uncaught k) ∧
       (∀ k : Nat, o = .timeout k → T ≤ (k : ℚ) * I) ∧
       (∀ (k : Nat) (v : JValue), o = .success k v →
          satisfiedBy expected v = true)) := by
  have hcaught : ∀ j e n, pred j = .raise e n → caughtByWaitFor e n = true := by
    intro j e n h
    have := hexc j e n h
    subst this
    simp [caughtByWaitFor]
  refine ⟨?_, ?_, ?_⟩
  · intro j e n h
    rw [h]
    simp [viewAttempt, hcaught j e n h]
  · intro pred' hview
    unfold waitForRun
    exact waitLoopF_congr T I pred pred' expected hview _ 0
  · exact waitLoopF_term T I pred expected hcaught
      (attemptsBound T I) 0 (⌈T / I⌉.toNat) (Nat.zero_le _)
      (by unfold attemptsBound; omega) (le_ceilNat_mul T I hI)

/-- Witness for C10: a predicate that always raises an
`Exception`-derived error (e.g. a `ConnectionError`) behaves exactly
like a predicate returning a falsy value, and the loop still terminates
with `TimeoutError` at or past the deadline. -/
theorem claim10_exceptions_swallowed_witness :
    (∀ j e n, (fun _ : Nat => AttemptRes.raise true false) j = .raise e n →
       viewAttempt none ((fun _ : Nat => AttemptRes.raise true false) j) = some none) ∧
    (waitForRun 1 1 (fun _ => .raise true false) none
       = waitForRun 1 1 (fun _ => .ret .null) none) ∧
    (∃ o, waitForRun 1 1 (fun _ => .raise true false) none = some o ∧
       (∀ k, o ≠ .uncaught k) ∧
       (∀ k : Nat, o = .timeout k → (1 : ℚ) ≤ (k : ℚ) * 1) ∧
       (∀ (k : Nat) (v : JValue), o = .success k v →
          satisfiedBy none v = true)) := by
  have h := claim10_exceptions_swallowed 1 1 none (fun _ => .raise true false)
    (by norm_num) (fun j e n hh => by cases hh; rfl)
  exact ⟨h.1, h.2.1 (fun _ => .ret .null) (fun j => rfl), h.2.2⟩

end PlayGodot
